import Mathlib

/-!
Shallow embedding of the mother-child fund backtesting engine in
`fund_app.py`.  Money amounts and prices are modelled as exact rationals
(the Python code uses floats); a price table is a list of rows in
ascending date order; tickers are strings.  The two engine entry points
`run_single_simulation` and `run_continuous_simulation` are translated
line by line from the source.
-/

namespace FundApp

/-- A trading date.  The Python code uses only two aspects of a pandas
timestamp: its day-of-month (`date_idx.day`, for the transfer schedule)
and subtraction of two dates in calendar days (`(a - b).days`, for round
durations), which we model with an absolute day ordinal. -/
structure Date where
  ord : ℤ
  day : ℕ
deriving DecidableEq

/-- One row of the aligned price table: `prices t` is ticker `t`'s price
on that date (`row[t]` in the source). -/
structure Row where
  date : Date
  prices : String → ℚ

/-- The aligned price table (`df`): its column set and its rows in
ascending date order. -/
structure DF where
  columns : List String
  rows : List Row

/-- The `Action` strings the source stores in a record's `"Action"`
field.  The source writes `"Hold"`, `"Transfer"`, `"★ Stop Profit"` and
`"Start"`; `InsufficientFunds` is included because the specification
names such a tag, but no branch of the source ever produces it. -/
inductive Action where
  | Hold
  | Transfer
  | StopProfit
  | Start
  | InsufficientFunds
deriving DecidableEq

/-- A row of the single-pass result table: the record dict built in
`run_single_simulation` (`Date`, `Total Value`, `Mom Value`,
`Child Total`, `ROI`, `Action`, and the `Val_{t}` entries in configured
child order). -/
structure SRec where
  date : Date
  totalValue : ℚ
  momValue : ℚ
  childTotal : ℚ
  roi : ℚ
  action : Action
  childVals : List (String × ℚ)
deriving DecidableEq

/-- A row of the continuous result table: the record dict built in
`run_continuous_simulation` (`Date`, `Total Value`, `ROI`, `Action`,
`Round`). -/
structure CRec where
  date : Date
  totalValue : ℚ
  roi : ℚ
  action : Action
  round : ℕ
deriving DecidableEq

/-- One completed round in continuous mode (`Start Date`, `End Date`,
`Duration` in calendar days, `Profit`, `Final ROI`). -/
structure RoundSummary where
  startDate : Date
  endDate : Date
  duration : ℤ
  profit : ℚ
  finalROI : ℚ
deriving DecidableEq

/-- The aggregate `stats` dict of `run_continuous_simulation`.
`currentROI = none` models the fact that the Python expression
`roi if is_running else 0.0` raises `NameError` when the loop never
assigned `roi` (no running day was ever processed). -/
structure Stats where
  totalRounds : ℕ
  isRunning : Bool
  currentROI : Option ℚ
  totalProfit : ℚ
  avgDuration : ℚ
deriving DecidableEq

/-- The engine parameters after ticker normalization: mother ticker,
filtered child tickers, capital, per-transfer amount `t_amt`, transfer
days-of-month `t_days`, and the stop-profit target. -/
structure Params where
  momTick : String
  childTicks : List String
  capital : ℚ
  tAmt : ℚ
  tDays : List ℕ
  target : ℚ

/-- The inner transfer loop of `run_single_simulation` (lines 117-124):
walk the children in configured order; while the running mother value
covers `t_amt`, move `t_amt / mom_price` mother units out and
`t_amt / child_price` child units in, reduce the running mother value,
and raise the `transferred_any` flag; on the first child the mother
value cannot cover, `break` (state returned unchanged from that point,
remaining children unfunded). -/
def singleTransferLoop (tAmt p : ℚ) (pr : String → ℚ) :
    List String → ℚ → ℚ → (String → ℚ) → Bool → ℚ × ℚ × (String → ℚ) × Bool
  | [], mu, mv, u, b => (mu, mv, u, b)
  | t :: rest, mu, mv, u, b =>
    if tAmt ≤ mv then
      singleTransferLoop tAmt p pr rest (mu - tAmt / p) (mv - tAmt)
        (Function.update u t (u t + tAmt / pr t)) true
    else (mu, mv, u, b)

/-- Python's `str.upper()` as the source applies it to ticker symbols
(ASCII case mapping, character by character). -/
def pyUpper (s : String) : String := ⟨s.data.map Char.toUpper⟩

/-- Python's `str.strip()` as the source applies it to ticker symbols:
drop leading and trailing whitespace. -/
def pyStrip (s : String) : String :=
  ⟨((s.data.dropWhile Char.isWhitespace).reverse.dropWhile Char.isWhitespace).reverse⟩

/-- The ticker normalization `t.upper().strip()` used throughout the
source. -/
def normTick (s : String) : String := pyStrip (pyUpper s)

/-- Line 95 of the source: `mom_val = mom_units * mom_price`. -/
def dayMomVal (P : Params) (row : Row) (mu : ℚ) : ℚ := mu * row.prices P.momTick

/-- Lines 98-102: the per-child `Val_{t}` pairs `(t, child_units[t] * row[t])`
in configured child order. -/
def dayChildVals (P : Params) (row : Row) (cu : String → ℚ) : List (String × ℚ) :=
  P.childTicks.map fun t => (t, cu t * row.prices t)

/-- Lines 97-102: `child_val_total`, the sum of the per-child values. -/
def dayChildTotal (P : Params) (row : Row) (cu : String → ℚ) : ℚ :=
  ((dayChildVals P row cu).map Prod.snd).sum

/-- Line 104: `total_val = mom_val + child_val_total`. -/
def dayTotalVal (P : Params) (row : Row) (mu : ℚ) (cu : String → ℚ) : ℚ :=
  dayMomVal P row mu + dayChildTotal P row cu

/-- Line 105: `roi = (total_val - capital) / capital`. -/
def dayRoi (P : Params) (row : Row) (mu : ℚ) (cu : String → ℚ) : ℚ :=
  (dayTotalVal P row mu cu - P.capital) / P.capital

/-- Lines 116-124: the whole transfer phase of one single-pass day —
run the transfer loop when the day-of-month is scheduled, otherwise
leave the state untouched with the `transferred_any` flag down.  The
running mother value starts at `mom_val` from line 95. -/
def dayTransfer (P : Params) (row : Row) (mu : ℚ) (cu : String → ℚ) :
    ℚ × ℚ × (String → ℚ) × Bool :=
  if row.date.day ∈ P.tDays then
    singleTransferLoop P.tAmt (row.prices P.momTick) row.prices
      P.childTicks mu (dayMomVal P row mu) cu false
  else (mu, dayMomVal P row mu, cu, false)

/-- The body of `run_single_simulation`'s date loop (lines 93-129) for
one row: value the holdings, compute ROI, and either stop (ROI at or
above target: `★ Stop Profit` record, `break`) or apply the day's
transfers and append a `Transfer`/`Hold` record.  Returns the record,
the new mother units, the new child units, and whether the loop breaks.
On a transfer day the record's `Mom Value` is the post-transfer running
mother value (the source decrements `mom_val` before building the
record), while `Total Value`, `Child Total` and the `Val_{t}` entries
were computed before the transfers. -/
def singleStep (P : Params) (row : Row) (mu : ℚ) (cu : String → ℚ) :
    SRec × ℚ × (String → ℚ) × Bool :=
  if dayRoi P row mu cu ≥ P.target then
    ({ date := row.date, totalValue := dayTotalVal P row mu cu,
       momValue := dayMomVal P row mu, childTotal := dayChildTotal P row cu,
       roi := dayRoi P row mu cu, action := .StopProfit,
       childVals := dayChildVals P row cu }, mu, cu, true)
  else
    ({ date := row.date, totalValue := dayTotalVal P row mu cu,
       momValue := (dayTransfer P row mu cu).2.1, childTotal := dayChildTotal P row cu,
       roi := dayRoi P row mu cu,
       action := if (dayTransfer P row mu cu).2.2.2 then .Transfer else .Hold,
       childVals := dayChildVals P row cu },
     (dayTransfer P row mu cu).1, (dayTransfer P row mu cu).2.2.1, false)

/-- The date loop of `run_single_simulation`: fold `singleStep` over the
rows, stopping at the first step that breaks; returns the record list
and the `triggered` flag. -/
def runSingleLoop (P : Params) : List Row → ℚ → (String → ℚ) → List SRec × Bool
  | [], _, _ => ([], false)
  | row :: rest, mu, cu =>
    let st := singleStep P row mu cu
    if st.2.2.2 then ([st.1], true)
    else (st.1 :: (runSingleLoop P rest st.2.1 st.2.2.1).1,
          (runSingleLoop P rest st.2.1 st.2.2.1).2)

/-- `run_single_simulation(df, mom_tick, child_ticks, capital, t_amt,
t_days, target)`.  Tickers are upper-cased and stripped; children absent
from the table's columns are dropped; a missing mother column returns
the empty table and `False`.  `none` models the `IndexError` the source
raises at `df[mom_tick].iloc[0]` when the mother column exists but the
table has no rows. -/
def run_single_simulation (df : DF) (momTickRaw : String) (childTicksRaw : List String)
    (capital tAmt : ℚ) (tDays : List ℕ) (target : ℚ) : Option (List SRec × Bool) :=
  let momTick := normTick momTickRaw
  let childTicks := (childTicksRaw.map normTick).filter fun t => t ∈ df.columns
  if momTick ∈ df.columns then
    match df.rows with
    | [] => none
    | r0 :: _ =>
      some (runSingleLoop ⟨momTick, childTicks, capital, tAmt, tDays, target⟩
              df.rows (capital / r0.prices momTick) fun _ => 0)
  else some ([], false)

/-- The inner transfer loop of `run_continuous_simulation` (lines
178-183).  Unlike the single-pass loop it has no `break` and no
`transferred_any` flag: a child the mother value cannot cover is simply
skipped and the loop continues with the remaining children. -/
def contTransferLoop (tAmt p : ℚ) (pr : String → ℚ) :
    List String → ℚ → ℚ → (String → ℚ) → ℚ × ℚ × (String → ℚ)
  | [], mu, mv, u => (mu, mv, u)
  | t :: rest, mu, mv, u =>
    if tAmt ≤ mv then
      contTransferLoop tAmt p pr rest (mu - tAmt / p) (mv - tAmt)
        (Function.update u t (u t + tAmt / pr t))
    else contTransferLoop tAmt p pr rest mu mv u

/-- The loop state of `run_continuous_simulation`: unit holdings, the
`is_running` flag, the open round's start date, the last value the loop
assigned to the Python variable `roi` (`none` when `roi` is still
unbound), and the completed-round list. -/
structure CState where
  momUnits : ℚ
  childUnits : String → ℚ
  isRunning : Bool
  roundStart : Option Date
  lastRoi : Option ℚ
  completed : List RoundSummary

/-- The initial state of `run_continuous_simulation`'s loop. -/
def initCState : CState :=
  { momUnits := 0, childUnits := fun _ => 0, isRunning := false,
    roundStart := none, lastRoi := none, completed := [] }

/-- Lines 160-161 of the source: `child_val_total` accumulated as
`child_units[t] * row[t]` over the children (the continuous loop keeps
no per-child breakdown). -/
def contChildTotal (P : Params) (row : Row) (cu : String → ℚ) : ℚ :=
  (P.childTicks.map fun t => cu t * row.prices t).sum

/-- Line 163: `total_val = mom_val + child_val_total` on a running date. -/
def contTotalVal (P : Params) (row : Row) (mu : ℚ) (cu : String → ℚ) : ℚ :=
  mu * row.prices P.momTick + contChildTotal P row cu

/-- Line 164: `roi = (total_val - capital) / capital` on a running date. -/
def contRoi (P : Params) (row : Row) (mu : ℚ) (cu : String → ℚ) : ℚ :=
  (contTotalVal P row mu cu - P.capital) / P.capital

/-- Lines 178-183: the whole transfer phase of one running continuous
day — run the skip-and-continue transfer loop when the day-of-month is
scheduled, otherwise leave the state untouched. -/
def contDayTransfer (P : Params) (row : Row) (mu : ℚ) (cu : String → ℚ) :
    ℚ × ℚ × (String → ℚ) :=
  if row.date.day ∈ P.tDays then
    contTransferLoop P.tAmt (row.prices P.momTick) row.prices
      P.childTicks mu (mu * row.prices P.momTick) cu
  else (mu, mu * row.prices P.momTick, cu)

/-- The date loop of `run_continuous_simulation` (lines 148-185).  A
non-running date re-enters: full capital into the mother fund at that
day's price, child units zeroed, a `Start` record, and `continue` (no
valuation, transfer or stop-profit logic, and `roi` not assigned).  A
running date values the holdings and either fires stop-profit (append a
`RoundSummary`, tag `★ Stop Profit`, clear `is_running`, zero the
mother units — the source does not touch `child_units` here) or applies
the day's transfers (skip-and-continue loop) and appends a record whose
action is always `Hold`. -/
def contLoop (P : Params) : List Row → CState → List CRec × CState
  | [], s => ([], s)
  | row :: rest, s =>
    if s.isRunning then
      if contRoi P row s.momUnits s.childUnits ≥ P.target then
        let start := s.roundStart.getD ⟨0, 0⟩
        let summary : RoundSummary :=
          ⟨start, row.date, row.date.ord - start.ord,
           contTotalVal P row s.momUnits s.childUnits - P.capital,
           contRoi P row s.momUnits s.childUnits⟩
        let s' : CState :=
          { s with isRunning := false, momUnits := 0,
                   lastRoi := some (contRoi P row s.momUnits s.childUnits),
                   completed := s.completed ++ [summary] }
        (⟨row.date, contTotalVal P row s.momUnits s.childUnits,
          contRoi P row s.momUnits s.childUnits, .StopProfit, s.completed.length + 1⟩ ::
           (contLoop P rest s').1, (contLoop P rest s').2)
      else
        let s' : CState :=
          { s with momUnits := (contDayTransfer P row s.momUnits s.childUnits).1,
                   childUnits := (contDayTransfer P row s.momUnits s.childUnits).2.2,
                   lastRoi := some (contRoi P row s.momUnits s.childUnits) }
        (⟨row.date, contTotalVal P row s.momUnits s.childUnits,
          contRoi P row s.momUnits s.childUnits, .Hold, s.completed.length + 1⟩ ::
           (contLoop P rest s').1, (contLoop P rest s').2)
    else
      let s' : CState :=
        { momUnits := P.capital / row.prices P.momTick, childUnits := fun _ => 0,
          isRunning := true, roundStart := some row.date, lastRoi := s.lastRoi,
          completed := s.completed }
      (⟨row.date, P.capital, 0, .Start, s.completed.length + 1⟩ ::
         (contLoop P rest s').1, (contLoop P rest s').2)

/-- The `stats` dict built after the loop (lines 187-193).
`currentROI := s.lastRoi` when running: the source evaluates the bare
variable `roi`, whose value is whatever the loop last assigned
(`none` = unbound = `NameError`). -/
def mkStats (s : CState) : Stats :=
  { totalRounds := s.completed.length,
    isRunning := s.isRunning,
    currentROI := (if s.isRunning then s.lastRoi else some 0),
    totalProfit := (s.completed.map RoundSummary.profit).sum,
    avgDuration := (if s.completed.isEmpty then 0
                    else (((s.completed.map RoundSummary.duration).sum : ℤ) : ℚ) / (s.completed.length : ℚ)) }

/-- `run_continuous_simulation(df, mom_tick, child_ticks, capital,
t_amt, t_days, target)`.  A missing mother column returns the empty
record table, an empty stats dict (modelled `none`) and no rounds. -/
def run_continuous_simulation (df : DF) (momTickRaw : String) (childTicksRaw : List String)
    (capital tAmt : ℚ) (tDays : List ℕ) (target : ℚ) :
    List CRec × Option Stats × List RoundSummary :=
  let momTick := normTick momTickRaw
  let childTicks := (childTicksRaw.map normTick).filter fun t => t ∈ df.columns
  if momTick ∈ df.columns then
    let res := contLoop ⟨momTick, childTicks, capital, tAmt, tDays, target⟩ df.rows initCState
    (res.1, some (mkStats res.2), res.2.completed)
  else ([], none, [])

/-- A price function giving every ticker the price 1. -/
def flatPrices : String → ℚ := fun _ => 1

/-- A price function where the child fund QQQ trades at 3 and every
other ticker at 1. -/
def qqqJumpPrices : String → ℚ := fun t => if t = "QQQ" then 3 else 1

/-- A price function where the mother fund BND trades at 6/5 and every
other ticker at 1. -/
def bndUpPrices : String → ℚ := fun t => if t = "BND" then 6 / 5 else 1

/-- A one-date table (the date is a transfer day when 6 is scheduled),
with mother BND and child QQQ both priced 1. -/
def dfOneTransferDay : DF := ⟨["BND", "QQQ"], [⟨⟨0, 6⟩, flatPrices⟩]⟩

/-- A two-date table (a non-transfer day then a day-6 transfer day),
all prices 1. -/
def dfTwoDays : DF := ⟨["BND", "QQQ"], [⟨⟨0, 5⟩, flatPrices⟩, ⟨⟨1, 6⟩, flatPrices⟩]⟩

/-- A three-date table where QQQ triples on the third date. -/
def dfQqqJump : DF :=
  ⟨["BND", "QQQ"], [⟨⟨0, 5⟩, flatPrices⟩, ⟨⟨1, 6⟩, flatPrices⟩, ⟨⟨2, 7⟩, qqqJumpPrices⟩]⟩

/-- A three-date mother-only table where BND rises 20% on the second
date and falls back on the third. -/
def dfBndRoundTrip : DF :=
  ⟨["BND"], [⟨⟨0, 5⟩, flatPrices⟩, ⟨⟨1, 6⟩, bndUpPrices⟩, ⟨⟨2, 7⟩, flatPrices⟩]⟩

/-- A one-date mother-only table. -/
def dfOneDay : DF := ⟨["BND"], [⟨⟨0, 5⟩, flatPrices⟩]⟩

/-- A table whose only column is the child QQQ: the mother ticker BND
is absent. -/
def dfNoMother : DF := ⟨["QQQ"], [⟨⟨0, 5⟩, flatPrices⟩]⟩

/-- Once the single-pass transfer loop has recorded a success, the
`transferred_any` flag stays raised. -/
theorem singleTransferLoop_flag (tAmt p : ℚ) (pr : String → ℚ) :
    ∀ (ticks : List String) (mu mv : ℚ) (u : String → ℚ),
      (singleTransferLoop tAmt p pr ticks mu mv u true).2.2.2 = true := by
  intro ticks
  induction ticks with
  | nil => intro mu mv u; rfl
  | cons t rest ih =>
    intro mu mv u
    rw [singleTransferLoop]
    by_cases hc : tAmt ≤ mv
    · rw [if_pos hc]; exact ih _ _ _
    · rw [if_neg hc]

/-- If the single-pass transfer loop ends with `transferred_any` still
down, it moved nothing: the state it returns is its input state. -/
theorem singleTransferLoop_noSuccess (tAmt p : ℚ) (pr : String → ℚ)
    (ticks : List String) (mu mv : ℚ) (u : String → ℚ)
    (h : (singleTransferLoop tAmt p pr ticks mu mv u false).2.2.2 = false) :
    singleTransferLoop tAmt p pr ticks mu mv u false = (mu, mv, u, false) := by
  cases ticks with
  | nil => rfl
  | cons t rest =>
    by_cases hc : tAmt ≤ mv
    · rw [singleTransferLoop, if_pos hc] at h
      rw [singleTransferLoop_flag] at h
      exact absurd h (by decide)
    · rw [singleTransferLoop, if_neg hc]

/-- Once the running mother value is below the transfer amount, the
continuous transfer loop skips every remaining child unchanged. -/
theorem contTransferLoop_low (tAmt p : ℚ) (pr : String → ℚ) :
    ∀ (ticks : List String) (mu mv : ℚ) (u : String → ℚ), mv < tAmt →
      contTransferLoop tAmt p pr ticks mu mv u = (mu, mv, u) := by
  intro ticks
  induction ticks with
  | nil => intro mu mv u _; rfl
  | cons t rest ih =>
    intro mu mv u h
    rw [contTransferLoop, if_neg (not_le.mpr h)]
    exact ih mu mv u h

/-- The two transfer loops move identical units: because the per-child
amount is one constant, the running mother value never recovers once it
drops below it, so the single-pass `break` and the continuous
skip-and-continue fund exactly the same children. -/
theorem transferLoops_agree (tAmt p : ℚ) (pr : String → ℚ) :
    ∀ (ticks : List String) (mu mv : ℚ) (u : String → ℚ) (b : Bool),
      contTransferLoop tAmt p pr ticks mu mv u =
        ((singleTransferLoop tAmt p pr ticks mu mv u b).1,
         (singleTransferLoop tAmt p pr ticks mu mv u b).2.1,
         (singleTransferLoop tAmt p pr ticks mu mv u b).2.2.1) := by
  intro ticks
  induction ticks with
  | nil => intro mu mv u b; rfl
  | cons t rest ih =>
    intro mu mv u b
    by_cases hc : tAmt ≤ mv
    · rw [contTransferLoop, singleTransferLoop, if_pos hc, if_pos hc]
      exact ih _ _ _ true
    · rw [contTransferLoop, singleTransferLoop, if_neg hc, if_neg hc,
          contTransferLoop_low tAmt p pr rest mu mv u (not_le.mp hc)]

/-- A transfer phase that raised no flag left the state untouched. -/
theorem dayTransfer_noSuccess (P : Params) (row : Row) (mu : ℚ) (cu : String → ℚ)
    (h : (dayTransfer P row mu cu).2.2.2 = false) :
    dayTransfer P row mu cu = (mu, dayMomVal P row mu, cu, false) := by
  by_cases hd : row.date.day ∈ P.tDays
  · rw [dayTransfer, if_pos hd] at h ⊢
    exact singleTransferLoop_noSuccess _ _ _ _ _ _ _ h
  · rw [dayTransfer, if_neg hd]

/-- The continuous transfer phase computes the same final units as the
single-pass one (it merely drops the flag). -/
theorem contDayTransfer_eq (P : Params) (row : Row) (mu : ℚ) (cu : String → ℚ) :
    contDayTransfer P row mu cu =
      ((dayTransfer P row mu cu).1, (dayTransfer P row mu cu).2.1,
       (dayTransfer P row mu cu).2.2.1) := by
  by_cases hd : row.date.day ∈ P.tDays
  · rw [contDayTransfer, dayTransfer, if_pos hd, if_pos hd]
    exact transferLoops_agree _ _ _ _ _ _ _ false
  · rw [contDayTransfer, dayTransfer, if_neg hd, if_neg hd]
    rfl

/-- The continuous valuation of a running day agrees with the
single-pass valuation on the same holdings. -/
theorem contTotalVal_eq (P : Params) (row : Row) (mu : ℚ) (cu : String → ℚ) :
    contTotalVal P row mu cu = dayTotalVal P row mu cu := by
  unfold contTotalVal dayTotalVal contChildTotal dayChildTotal dayChildVals dayMomVal
  rw [List.map_map]
  rfl

/-- The continuous ROI of a running day agrees with the single-pass
ROI on the same holdings. -/
theorem contRoi_eq (P : Params) (row : Row) (mu : ℚ) (cu : String → ℚ) :
    contRoi P row mu cu = dayRoi P row mu cu := by
  unfold contRoi dayRoi
  rw [contTotalVal_eq]

/-- When the day's ROI reaches the target, `singleStep` is the
stop-profit branch: the `★ Stop Profit` record, unchanged holdings,
and the break flag. -/
theorem singleStep_stop_eq (P : Params) (row : Row) (mu : ℚ) (cu : String → ℚ)
    (hroi : dayRoi P row mu cu ≥ P.target) :
    singleStep P row mu cu =
      ({ date := row.date, totalValue := dayTotalVal P row mu cu,
         momValue := dayMomVal P row mu, childTotal := dayChildTotal P row cu,
         roi := dayRoi P row mu cu, action := .StopProfit,
         childVals := dayChildVals P row cu }, mu, cu, true) := by
  rw [singleStep, if_pos hroi]

/-- When the day's ROI is below the target, `singleStep` is the
transfer branch. -/
theorem singleStep_go_eq (P : Params) (row : Row) (mu : ℚ) (cu : String → ℚ)
    (hroi : ¬ dayRoi P row mu cu ≥ P.target) :
    singleStep P row mu cu =
      ({ date := row.date, totalValue := dayTotalVal P row mu cu,
         momValue := (dayTransfer P row mu cu).2.1, childTotal := dayChildTotal P row cu,
         roi := dayRoi P row mu cu,
         action := if (dayTransfer P row mu cu).2.2.2 then .Transfer else .Hold,
         childVals := dayChildVals P row cu },
       (dayTransfer P row mu cu).1, (dayTransfer P row mu cu).2.2.1, false) := by
  rw [singleStep, if_neg hroi]

/-- A step that breaks is a stop-profit step: target reached, holdings
unchanged, record tagged `StopProfit` with the raw (pre-transfer)
mother valuation. -/
theorem singleStep_of_break (P : Params) (row : Row) (mu : ℚ) (cu : String → ℚ)
    (hb : (singleStep P row mu cu).2.2.2 = true) :
    P.target ≤ dayRoi P row mu cu ∧
    (singleStep P row mu cu).2.1 = mu ∧ (singleStep P row mu cu).2.2.1 = cu ∧
    (singleStep P row mu cu).1.action = .StopProfit ∧
    (singleStep P row mu cu).1.roi = dayRoi P row mu cu ∧
    (singleStep P row mu cu).1.momValue = dayMomVal P row mu ∧
    (singleStep P row mu cu).1.totalValue =
      (singleStep P row mu cu).1.momValue + (singleStep P row mu cu).1.childTotal := by
  by_cases hroi : dayRoi P row mu cu ≥ P.target
  · rw [singleStep_stop_eq P row mu cu hroi]
    exact ⟨hroi, rfl, rfl, rfl, rfl, rfl, rfl⟩
  · rw [singleStep_go_eq P row mu cu hroi] at hb
    exact Bool.noConfusion hb

/-- A step that does not break is below target and tags the day
`Transfer` or `Hold`, never `StopProfit`. -/
theorem singleStep_of_go (P : Params) (row : Row) (mu : ℚ) (cu : String → ℚ)
    (hb : (singleStep P row mu cu).2.2.2 = false) :
    dayRoi P row mu cu < P.target ∧
    (singleStep P row mu cu).1.roi = dayRoi P row mu cu ∧
    (singleStep P row mu cu).1.action ≠ .StopProfit := by
  by_cases hroi : dayRoi P row mu cu ≥ P.target
  · rw [singleStep_stop_eq P row mu cu hroi] at hb
    exact Bool.noConfusion hb
  · rw [singleStep_go_eq P row mu cu hroi]
    refine ⟨not_le.mp hroi, rfl, ?_⟩
    by_cases ha : (dayTransfer P row mu cu).2.2.2 = true
    · simp only [ha, if_true]; decide
    · simp only [Bool.not_eq_true] at ha
      simp only [ha, Bool.false_eq_true, if_false]; decide

/-- Every record a single-pass step emits satisfies the bookkeeping
identities: its child total is the sum of its per-child values, and on
any day not tagged `Transfer` its total value is its mother value plus
its child total. -/
theorem singleStep_rec_props (P : Params) (row : Row) (mu : ℚ) (cu : String → ℚ) :
    (singleStep P row mu cu).1.childTotal =
      ((singleStep P row mu cu).1.childVals.map Prod.snd).sum ∧
    ((singleStep P row mu cu).1.action ≠ .Transfer →
      (singleStep P row mu cu).1.totalValue =
        (singleStep P row mu cu).1.momValue + (singleStep P row mu cu).1.childTotal) := by
  by_cases hroi : dayRoi P row mu cu ≥ P.target
  · rw [singleStep_stop_eq P row mu cu hroi]
    exact ⟨rfl, fun _ => rfl⟩
  · rw [singleStep_go_eq P row mu cu hroi]
    refine ⟨rfl, ?_⟩
    intro hne
    by_cases ha : (dayTransfer P row mu cu).2.2.2 = true
    · exact absurd (by simp [ha]) hne
    · rw [Bool.not_eq_true] at ha
      have hfr := dayTransfer_noSuccess P row mu cu ha
      show dayTotalVal P row mu cu = (dayTransfer P row mu cu).2.1 + dayChildTotal P row cu
      rw [hfr]
      rfl

/-- Every record the single-pass date loop emits satisfies the
bookkeeping identities of `singleStep_rec_props`. -/
theorem runSingleLoop_rec_props (P : Params) :
    ∀ (rows : List Row) (mu : ℚ) (cu : String → ℚ),
      ∀ r ∈ (runSingleLoop P rows mu cu).1,
        r.childTotal = (r.childVals.map Prod.snd).sum ∧
        (r.action ≠ .Transfer → r.totalValue = r.momValue + r.childTotal) := by
  intro rows
  induction rows with
  | nil => intro mu cu r hr; exact absurd hr (List.not_mem_nil r)
  | cons row rest ih =>
    intro mu cu r hr
    rw [runSingleLoop] at hr
    by_cases hb : (singleStep P row mu cu).2.2.2 = true
    · rw [if_pos hb] at hr
      have hr' : r = (singleStep P row mu cu).1 := by simpa using hr
      rw [hr']
      exact singleStep_rec_props P row mu cu
    · rw [if_neg hb] at hr
      rcases List.mem_cons.mp hr with h1 | h1
      · rw [h1]
        exact singleStep_rec_props P row mu cu
      · exact ih _ _ r h1

/-- The single-pass date loop triggers exactly when it ends in a
`StopProfit` record: that record closes the list, reaches the target,
keeps its raw valuation split, and every record before it is strictly
below the target and not `StopProfit`; an untriggered run has no record
at or above the target. -/
theorem runSingleLoop_firstStop (P : Params) :
    ∀ (rows : List Row) (mu : ℚ) (cu : String → ℚ) (recs : List SRec) (trig : Bool),
      runSingleLoop P rows mu cu = (recs, trig) →
      (trig = true →
        ∃ body lastR, recs = body ++ [lastR] ∧ lastR.action = .StopProfit ∧
          P.target ≤ lastR.roi ∧
          lastR.totalValue = lastR.momValue + lastR.childTotal ∧
          ∀ r ∈ body, r.roi < P.target ∧ r.action ≠ .StopProfit) ∧
      (trig = false → ∀ r ∈ recs, r.roi < P.target ∧ r.action ≠ .StopProfit) := by
  intro rows
  induction rows with
  | nil =>
    intro mu cu recs trig h
    rw [runSingleLoop] at h
    injection h with h1 h2
    subst h1; subst h2
    exact ⟨fun ht => Bool.noConfusion ht, fun _ r hr => absurd hr (List.not_mem_nil r)⟩
  | cons row rest ih =>
    intro mu cu recs trig h
    rw [runSingleLoop] at h
    by_cases hb : (singleStep P row mu cu).2.2.2 = true
    · rw [if_pos hb] at h
      injection h with h1 h2
      subst h1; subst h2
      obtain ⟨hroi, _, _, hact, hrec_roi, _, htot⟩ := singleStep_of_break P row mu cu hb
      refine ⟨fun _ => ?_, fun hf => Bool.noConfusion hf⟩
      exact ⟨[], (singleStep P row mu cu).1, by simp, hact,
             by rw [hrec_roi]; exact hroi, htot,
             fun r hr => absurd hr (List.not_mem_nil r)⟩
    · have hb' : (singleStep P row mu cu).2.2.2 = false := by
        rw [Bool.not_eq_true] at hb; exact hb
      rw [if_neg hb] at h
      rcases hrec : runSingleLoop P rest (singleStep P row mu cu).2.1
          (singleStep P row mu cu).2.2.1 with ⟨recs', trig'⟩
      rw [hrec] at h
      injection h with h1 h2
      subst h1; subst h2
      obtain ⟨hlt, hrroi, hnact⟩ := singleStep_of_go P row mu cu hb'
      have IH := ih (singleStep P row mu cu).2.1 (singleStep P row mu cu).2.2.1 recs' trig' hrec
      constructor
      · intro ht
        obtain ⟨body, lastR, hsplit, p1, p2, p3, p4⟩ := IH.1 ht
        refine ⟨(singleStep P row mu cu).1 :: body, lastR, by rw [hsplit]; rfl, p1, p2, p3, ?_⟩
        intro r hr
        rcases List.mem_cons.mp hr with h1 | h1
        · rw [h1]; exact ⟨by rw [hrroi]; exact hlt, hnact⟩
        · exact p4 r h1
      · intro hf r hr
        rcases List.mem_cons.mp hr with h1 | h1
        · rw [h1]; exact ⟨by rw [hrroi]; exact hlt, hnact⟩
        · exact IH.2 hf r h1

/-- C1: in the single-pass simulator, a triggered round ends in a
`StopProfit`-tagged record that is the last record of the round, whose
ROI reaches the target, while every earlier record's ROI is strictly
below the target (so the stop fires on the first qualifying date and
never earlier); the stop record keeps the raw valuation split
(total = mother + children) and, at step level, a breaking step returns
the unit holdings unchanged and records the raw pre-transfer mother
valuation — no transfer is executed on the triggering day even when its
day-of-month is scheduled. -/
theorem spec_C1 :
    (∀ (df : DF) (momRaw : String) (childRaw : List String) (capital tAmt : ℚ)
        (tDays : List ℕ) (target : ℚ) (recs : List SRec),
        run_single_simulation df momRaw childRaw capital tAmt tDays target = some (recs, true) →
        ∃ body lastR, recs = body ++ [lastR] ∧ lastR.action = .StopProfit ∧
          target ≤ lastR.roi ∧ lastR.totalValue = lastR.momValue + lastR.childTotal ∧
          ∀ r ∈ body, r.roi < target ∧ r.action ≠ .StopProfit) ∧
    (∀ (P : Params) (row : Row) (mu : ℚ) (cu : String → ℚ),
        (singleStep P row mu cu).2.2.2 = true →
        (singleStep P row mu cu).2.1 = mu ∧ (singleStep P row mu cu).2.2.1 = cu ∧
        (singleStep P row mu cu).1.momValue = dayMomVal P row mu) := by
  constructor
  · intro df momRaw childRaw capital tAmt tDays target recs h
    simp only [run_single_simulation] at h
    by_cases hmem : normTick momRaw ∈ df.columns
    · rw [if_pos hmem] at h
      cases hrows : df.rows with
      | nil => rw [hrows] at h; exact Option.noConfusion h
      | cons r0 rest =>
        rw [hrows] at h
        injection h with h'
        exact (runSingleLoop_firstStop ⟨normTick momRaw,
          (childRaw.map normTick).filter fun t => t ∈ df.columns,
          capital, tAmt, tDays, target⟩ (r0 :: rest)
          (capital / r0.prices (normTick momRaw)) (fun _ => 0) recs true h').1 rfl
    · rw [if_neg hmem] at h
      injection h with h'
      injection h' with ha hb
      exact Bool.noConfusion hb
  · intro P row mu cu hb
    obtain ⟨_, hmu, hcu, _, _, hmom, _⟩ := singleStep_of_break P row mu cu hb
    exact ⟨hmu, hcu, hmom⟩

/-- C1 witness: a one-date run at target 0 triggers immediately and the
theorem applies to it. -/
theorem spec_C1_witness :
    ∃ body lastR,
      [(⟨⟨0, 6⟩, 10000, 10000, 0, 0, Action.StopProfit, [("QQQ", 0)]⟩ : SRec)]
          = body ++ [lastR] ∧
        lastR.action = .StopProfit ∧ (0 : ℚ) ≤ lastR.roi ∧
        lastR.totalValue = lastR.momValue + lastR.childTotal ∧
        ∀ r ∈ body, r.roi < (0 : ℚ) ∧ r.action ≠ .StopProfit :=
  spec_C1.1 dfOneTransferDay "BND" ["QQQ"] 10000 3000 [6] 0
    [⟨⟨0, 6⟩, 10000, 10000, 0, 0, Action.StopProfit, [("QQQ", 0)]⟩] (by
      have hb : normTick "BND" = "BND" := by decide
      have hq : normTick "QQQ" = "QQQ" := by decide
      norm_num [run_single_simulation, runSingleLoop, singleStep, singleTransferLoop,
        dayTransfer, dayRoi, dayTotalVal, dayMomVal, dayChildTotal, dayChildVals,
        dfOneTransferDay, flatPrices, hb, hq])

/-- C2 counterexample: a transfer day breaks the identity
`Total Value = Mom Value + sum of per-child values`.  With capital
10000, one child, transfer amount 3000 and all prices 1, the single
transfer day records total 10000 but mother 7000 and child total 0
(the source decrements `mom_val` by the transferred amount before
building the record, while the total and child values were computed
before the transfer). -/
theorem spec_C2_counterexample :
    (run_single_simulation dfOneTransferDay "BND" ["QQQ"] 10000 3000 [6] 10).map
      (fun p => p.1.map fun r => (r.totalValue, r.momValue, r.childTotal, r.action))
      = some [(10000, 7000, 0, Action.Transfer)] ∧
    (10000 : ℚ) ≠ 7000 + 0 := by
  have hb : normTick "BND" = "BND" := by decide
  have hq : normTick "QQQ" = "QQQ" := by decide
  constructor
  · norm_num [run_single_simulation, runSingleLoop, singleStep, singleTransferLoop,
      dayTransfer, dayRoi, dayTotalVal, dayMomVal, dayChildTotal, dayChildVals,
      dfOneTransferDay, flatPrices, hb, hq]
  · norm_num

/-- C2 (amended): in every single-pass record the child total is the
sum of the recorded per-child values, and the identity
`Total Value = Mom Value + Child Total` holds exactly on every record
not tagged `Transfer` (on `Transfer` records the recorded mother value
has already been reduced by the transferred amounts).  The continuous
simulator's records carry no mother/child breakdown at all. -/
theorem spec_C2_amended (df : DF) (momRaw : String) (childRaw : List String)
    (capital tAmt : ℚ) (tDays : List ℕ) (target : ℚ) (recs : List SRec) (trig : Bool)
    (h : run_single_simulation df momRaw childRaw capital tAmt tDays target = some (recs, trig)) :
    ∀ r ∈ recs, r.childTotal = (r.childVals.map Prod.snd).sum ∧
      (r.action ≠ .Transfer → r.totalValue = r.momValue + r.childTotal) := by
  simp only [run_single_simulation] at h
  by_cases hmem : normTick momRaw ∈ df.columns
  · rw [if_pos hmem] at h
    cases hrows : df.rows with
    | nil => rw [hrows] at h; exact Option.noConfusion h
    | cons r0 rest =>
      rw [hrows] at h
      injection h with h'
      intro r hr
      refine runSingleLoop_rec_props ⟨normTick momRaw,
        (childRaw.map normTick).filter fun t => t ∈ df.columns,
        capital, tAmt, tDays, target⟩ (r0 :: rest)
        (capital / r0.prices (normTick momRaw)) (fun _ => 0) r ?_
      rw [h']
      exact hr
  · rw [if_neg hmem] at h
    injection h with h'
    injection h' with ha hb
    subst ha
    intro r hr
    exact absurd hr (List.not_mem_nil r)

/-- C2 witness: the amended theorem applied to the counterexample run's
record. -/
theorem spec_C2_witness :
    (⟨⟨0, 6⟩, 10000, 7000, 0, 0, Action.Transfer, [("QQQ", 0)]⟩ : SRec).childTotal =
      ((⟨⟨0, 6⟩, 10000, 7000, 0, 0, Action.Transfer, [("QQQ", 0)]⟩ : SRec).childVals.map
        Prod.snd).sum :=
  (spec_C2_amended dfOneTransferDay "BND" ["QQQ"] 10000 3000 [6] 10
    [⟨⟨0, 6⟩, 10000, 7000, 0, 0, Action.Transfer, [("QQQ", 0)]⟩] false (by
      have hb : normTick "BND" = "BND" := by decide
      have hq : normTick "QQQ" = "QQQ" := by decide
      norm_num [run_single_simulation, runSingleLoop, singleStep, singleTransferLoop,
        dayTransfer, dayRoi, dayTotalVal, dayMomVal, dayChildTotal, dayChildVals,
        dfOneTransferDay, flatPrices, hb, hq])
    ⟨⟨0, 6⟩, 10000, 7000, 0, 0, Action.Transfer, [("QQQ", 0)]⟩ (by simp)).1

/-- C3 counterexample: the specification's own example — mother value
2500 on a transfer day with transfer amount 3000 and a single child —
is tagged `Hold`, not `InsufficientFunds`: no branch of the source ever
produces an `InsufficientFunds` tag. -/
theorem spec_C3_counterexample :
    (run_single_simulation dfOneTransferDay "BND" ["QQQ"] 2500 3000 [6] 1).map
      (fun p => p.1.map fun r => (r.momValue, r.action)) = some [(2500, Action.Hold)] ∧
    Action.Hold ≠ Action.InsufficientFunds := by
  have hb : normTick "BND" = "BND" := by decide
  have hq : normTick "QQQ" = "QQQ" := by decide
  constructor
  · norm_num [run_single_simulation, runSingleLoop, singleStep, singleTransferLoop,
      dayTransfer, dayRoi, dayTotalVal, dayMomVal, dayChildTotal, dayChildVals,
      dfOneTransferDay, flatPrices, hb, hq]
  · decide

/-- C3 (amended): on a transfer day, the first child the mother value
cannot cover aborts the loop with the state unchanged from that point
(remaining children are not funded); a day on which no transfer
succeeded keeps its state entirely (no units moved) and is tagged
`Hold` — there is no `InsufficientFunds` tag in the code — while a day
with at least one success is tagged `Transfer`. -/
theorem spec_C3_amended :
    (∀ (tAmt p : ℚ) (pr : String → ℚ) (t : String) (rest : List String)
        (mu mv : ℚ) (u : String → ℚ) (b : Bool), mv < tAmt →
        singleTransferLoop tAmt p pr (t :: rest) mu mv u b = (mu, mv, u, b)) ∧
    (∀ (P : Params) (row : Row) (mu : ℚ) (cu : String → ℚ),
        (dayTransfer P row mu cu).2.2.2 = false →
        dayTransfer P row mu cu = (mu, dayMomVal P row mu, cu, false)) ∧
    (∀ (P : Params) (row : Row) (mu : ℚ) (cu : String → ℚ),
        ¬ dayRoi P row mu cu ≥ P.target →
        (singleStep P row mu cu).1.action =
          (if (dayTransfer P row mu cu).2.2.2 then Action.Transfer else Action.Hold)) ∧
    (∀ (P : Params) (row : Row) (mu : ℚ) (cu : String → ℚ),
        (singleStep P row mu cu).1.action ≠ Action.InsufficientFunds) := by
  refine ⟨?_, dayTransfer_noSuccess, ?_, ?_⟩
  · intro tAmt p pr t rest mu mv u b h
    rw [singleTransferLoop, if_neg (not_le.mpr h)]
  · intro P row mu cu hroi
    rw [singleStep_go_eq P row mu cu hroi]
  · intro P row mu cu
    by_cases hroi : dayRoi P row mu cu ≥ P.target
    · rw [singleStep_stop_eq P row mu cu hroi]
      intro hcon
      exact Action.noConfusion hcon
    · rw [singleStep_go_eq P row mu cu hroi]
      by_cases ha : (dayTransfer P row mu cu).2.2.2 = true
      · simp [ha]
      · rw [Bool.not_eq_true] at ha
        simp [ha]

/-- C3 witness: the amended theorem's break clause applied to the
specification's 2500-versus-3000 example. -/
theorem spec_C3_witness :
    (2500 : ℚ) < 3000 ∧
    singleTransferLoop 3000 1 flatPrices ["QQQ"] 10000 2500 (fun _ => 0) false
      = (10000, 2500, fun _ => 0, false) :=
  ⟨by norm_num, spec_C3_amended.1 3000 1 flatPrices "QQQ" [] 10000 2500 (fun _ => 0) false
    (by norm_num)⟩

/-- C4: whenever the continuous loop reaches a date while not running
(at the initial date, and on the date after any stop-profit), it
re-enters immediately: mother units become capital divided by that
day's mother price, all child units become zero, the round start is
that date, a `Start` record with total value equal to capital and ROI 0
is appended, and the loop continues with the remaining dates — no
transfer or stop-profit logic touches the entry day. -/
theorem spec_C4 (P : Params) (row : Row) (rest : List Row) (s : CState)
    (h : s.isRunning = false) :
    contLoop P (row :: rest) s =
      (⟨row.date, P.capital, 0, .Start, s.completed.length + 1⟩ ::
         (contLoop P rest ⟨P.capital / row.prices P.momTick, fun _ => 0, true,
            some row.date, s.lastRoi, s.completed⟩).1,
       (contLoop P rest ⟨P.capital / row.prices P.momTick, fun _ => 0, true,
          some row.date, s.lastRoi, s.completed⟩).2) := by
  rw [contLoop, if_neg (by simp [h])]

/-- C4 witness: the re-entry equation applied to the initial state on a
concrete one-date table. -/
theorem spec_C4_witness :
    initCState.isRunning = false ∧
    contLoop ⟨"BND", ["QQQ"], 10000, 3000, [6], 10⟩ [⟨⟨0, 5⟩, flatPrices⟩] initCState =
      ([⟨⟨0, 5⟩, 10000, 0, .Start, 1⟩],
       ⟨10000 / flatPrices "BND", fun _ => 0, true, some ⟨0, 5⟩, none, []⟩) :=
  ⟨rfl, spec_C4 ⟨"BND", ["QQQ"], 10000, 3000, [6], 10⟩ ⟨⟨0, 5⟩, flatPrices⟩ [] initCState rfl⟩

/-- C5 counterexample: on the same price table (two dates, the second a
scheduled transfer day, all prices 1, capital 10000, transfer 3000,
target 1000%), the single-pass simulator tags the transfer day
`Transfer` while the continuous simulator — in the same running state,
executing the same transfer (its child units end at 3000) — tags it
`Hold`: the running-day action tagging is not identical. -/
theorem spec_C5_counterexample :
    (run_single_simulation dfTwoDays "BND" ["QQQ"] 10000 3000 [6] 10).map
      (fun p => p.1.map SRec.action) = some [Action.Hold, Action.Transfer] ∧
    (run_continuous_simulation dfTwoDays "BND" ["QQQ"] 10000 3000 [6] 10).1.map CRec.action
      = [Action.Start, Action.Hold] ∧
    (contLoop ⟨"BND", ["QQQ"], 10000, 3000, [6], 10⟩ dfTwoDays.rows initCState).2.childUnits
      "QQQ" = 3000 := by
  have hb : normTick "BND" = "BND" := by decide
  have hq : normTick "QQQ" = "QQQ" := by decide
  refine ⟨?_, ?_, ?_⟩
  · norm_num [run_single_simulation, runSingleLoop, singleStep, singleTransferLoop,
      dayTransfer, dayRoi, dayTotalVal, dayMomVal, dayChildTotal, dayChildVals,
      dfTwoDays, flatPrices, hb, hq, Function.update]
  · norm_num [run_continuous_simulation, contLoop, contRoi, contTotalVal, contChildTotal,
      contDayTransfer, contTransferLoop, initCState, dfTwoDays, flatPrices, hb, hq,
      Function.update]
  · norm_num [contLoop, contRoi, contTotalVal, contChildTotal,
      contDayTransfer, contTransferLoop, initCState, dfTwoDays, flatPrices,
      Function.update]

/-- C5 (amended): on a running date the continuous simulator's
valuation and stop-profit decision coincide with the single-pass
step's (same total value, same ROI, stop exactly when the single-pass
step breaks), and when no stop fires its unit updates equal the
single-pass step's (the skip-and-continue loop funds the same children
as the break loop, because the constant per-child amount can never be
re-afforded once missed); but the record's tag on a running date is
always `Hold` or `StopProfit` — the continuous simulator never tags
`Transfer` (nor `InsufficientFunds`), even when transfers execute. -/
theorem spec_C5_amended (P : Params) (row : Row) (s : CState)
    (hrun : s.isRunning = true) :
    ∃ rec s', contLoop P [row] s = ([rec], s') ∧
      rec.totalValue = (singleStep P row s.momUnits s.childUnits).1.totalValue ∧
      rec.roi = (singleStep P row s.momUnits s.childUnits).1.roi ∧
      (rec.action = .StopProfit ↔ (singleStep P row s.momUnits s.childUnits).2.2.2 = true) ∧
      (rec.action = .Hold ∨ rec.action = .StopProfit) ∧
      ((singleStep P row s.momUnits s.childUnits).2.2.2 = false →
        s'.momUnits = (singleStep P row s.momUnits s.childUnits).2.1 ∧
        s'.childUnits = (singleStep P row s.momUnits s.childUnits).2.2.1) := by
  by_cases hroi : dayRoi P row s.momUnits s.childUnits ≥ P.target
  · have hcr : contRoi P row s.momUnits s.childUnits ≥ P.target := by
      rw [contRoi_eq]; exact hroi
    have heval : contLoop P [row] s =
        ([⟨row.date, contTotalVal P row s.momUnits s.childUnits,
           contRoi P row s.momUnits s.childUnits, .StopProfit, s.completed.length + 1⟩],
         { s with isRunning := false, momUnits := 0,
                  lastRoi := some (contRoi P row s.momUnits s.childUnits),
                  completed := s.completed ++
                    [⟨s.roundStart.getD ⟨0, 0⟩, row.date,
                      row.date.ord - (s.roundStart.getD ⟨0, 0⟩).ord,
                      contTotalVal P row s.momUnits s.childUnits - P.capital,
                      contRoi P row s.momUnits s.childUnits⟩] }) := by
      rw [contLoop, if_pos hrun, if_pos hcr]; rfl
    refine ⟨_, _, heval, ?_⟩
    rw [singleStep_stop_eq P row s.momUnits s.childUnits hroi]
    refine ⟨contTotalVal_eq P row s.momUnits s.childUnits,
            contRoi_eq P row s.momUnits s.childUnits,
            ⟨fun _ => rfl, fun _ => rfl⟩, Or.inr rfl, fun hf => Bool.noConfusion hf⟩
  · have hcr : ¬ contRoi P row s.momUnits s.childUnits ≥ P.target := by
      rw [contRoi_eq]; exact hroi
    have heval : contLoop P [row] s =
        ([⟨row.date, contTotalVal P row s.momUnits s.childUnits,
           contRoi P row s.momUnits s.childUnits, .Hold, s.completed.length + 1⟩],
         { s with momUnits := (contDayTransfer P row s.momUnits s.childUnits).1,
                  childUnits := (contDayTransfer P row s.momUnits s.childUnits).2.2,
                  lastRoi := some (contRoi P row s.momUnits s.childUnits) }) := by
      rw [contLoop, if_pos hrun, if_neg hcr]; rfl
    refine ⟨_, _, heval, ?_⟩
    rw [singleStep_go_eq P row s.momUnits s.childUnits hroi]
    refine ⟨contTotalVal_eq P row s.momUnits s.childUnits,
            contRoi_eq P row s.momUnits s.childUnits,
            ⟨fun hcon => Action.noConfusion hcon, fun hcon => Bool.noConfusion hcon⟩,
            Or.inl rfl, fun _ => ⟨?_, ?_⟩⟩
    · show (contDayTransfer P row s.momUnits s.childUnits).1 =
        (dayTransfer P row s.momUnits s.childUnits).1
      rw [contDayTransfer_eq]
    · show (contDayTransfer P row s.momUnits s.childUnits).2.2 =
        (dayTransfer P row s.momUnits s.childUnits).2.2.1
      rw [contDayTransfer_eq]

/-- C5 witness: the running-day equivalence applied to a concrete
running state on a transfer day. -/
theorem spec_C5_witness :
    ∃ rec s',
      contLoop ⟨"BND", ["QQQ"], 10000, 3000, [6], 10⟩ [⟨⟨1, 6⟩, flatPrices⟩]
          ⟨10000, fun _ => 0, true, some ⟨0, 5⟩, none, []⟩ = ([rec], s') ∧
      rec.totalValue = (singleStep ⟨"BND", ["QQQ"], 10000, 3000, [6], 10⟩
        ⟨⟨1, 6⟩, flatPrices⟩ 10000 fun _ => 0).1.totalValue ∧
      rec.roi = (singleStep ⟨"BND", ["QQQ"], 10000, 3000, [6], 10⟩
        ⟨⟨1, 6⟩, flatPrices⟩ 10000 fun _ => 0).1.roi ∧
      (rec.action = .StopProfit ↔ (singleStep ⟨"BND", ["QQQ"], 10000, 3000, [6], 10⟩
        ⟨⟨1, 6⟩, flatPrices⟩ 10000 fun _ => 0).2.2.2 = true) ∧
      (rec.action = .Hold ∨ rec.action = .StopProfit) ∧
      ((singleStep ⟨"BND", ["QQQ"], 10000, 3000, [6], 10⟩
          ⟨⟨1, 6⟩, flatPrices⟩ 10000 fun _ => 0).2.2.2 = false →
        s'.momUnits = (singleStep ⟨"BND", ["QQQ"], 10000, 3000, [6], 10⟩
          ⟨⟨1, 6⟩, flatPrices⟩ 10000 fun _ => 0).2.1 ∧
        s'.childUnits = (singleStep ⟨"BND", ["QQQ"], 10000, 3000, [6], 10⟩
          ⟨⟨1, 6⟩, flatPrices⟩ 10000 fun _ => 0).2.2.1) :=
  spec_C5_amended ⟨"BND", ["QQQ"], 10000, 3000, [6], 10⟩ ⟨⟨1, 6⟩, flatPrices⟩
    ⟨10000, fun _ => 0, true, some ⟨0, 5⟩, none, []⟩ rfl

/-- C6 counterexample: a concrete continuous run that fires stop-profit
after having funded the child leaves the child's units at 3000, not 0:
only the mother units are zeroed at stop-profit (child units are reset
only at the next re-entry). -/
theorem spec_C6_counterexample :
    (contLoop ⟨"BND", ["QQQ"], 10000, 3000, [6], 1/2⟩ dfQqqJump.rows initCState).1.map
        CRec.action = [Action.Start, Action.Hold, Action.StopProfit] ∧
    (contLoop ⟨"BND", ["QQQ"], 10000, 3000, [6], 1/2⟩ dfQqqJump.rows initCState).2.isRunning
      = false ∧
    (contLoop ⟨"BND", ["QQQ"], 10000, 3000, [6], 1/2⟩ dfQqqJump.rows initCState).2.momUnits
      = 0 ∧
    (contLoop ⟨"BND", ["QQQ"], 10000, 3000, [6], 1/2⟩ dfQqqJump.rows initCState).2.childUnits
      "QQQ" = 3000 ∧
    (3000 : ℚ) ≠ 0 := by
  have hbq : ¬ ("BND" : String) = "QQQ" := by decide
  refine ⟨?_, ?_, ?_, ?_, by norm_num⟩ <;>
    norm_num [contLoop, contRoi, contTotalVal, contChildTotal, contDayTransfer,
      contTransferLoop, initCState, dfQqqJump, flatPrices, qqqJumpPrices, Function.update, hbq]

/-- C6 (amended): when stop-profit fires on a running date, the loop
appends in the same step a `RoundSummary` carrying the round's start
date, this date, the elapsed calendar days, the final ROI and the
profit (total value minus capital), tags the record `StopProfit` with
round index `completed + 1`, sets `isRunning` to false and zeroes the
mother units — but leaves every child's units unchanged (they are
zeroed only at the next re-entry). -/
theorem spec_C6_amended (P : Params) (row : Row) (rest : List Row) (s : CState) (d0 : Date)
    (hrun : s.isRunning = true) (hstart : s.roundStart = some d0)
    (hroi : contRoi P row s.momUnits s.childUnits ≥ P.target) :
    contLoop P (row :: rest) s =
      (⟨row.date, contTotalVal P row s.momUnits s.childUnits,
        contRoi P row s.momUnits s.childUnits, .StopProfit, s.completed.length + 1⟩ ::
         (contLoop P rest
           ⟨0, s.childUnits, false, s.roundStart,
            some (contRoi P row s.momUnits s.childUnits),
            s.completed ++
              [⟨d0, row.date, row.date.ord - d0.ord,
                contTotalVal P row s.momUnits s.childUnits - P.capital,
                contRoi P row s.momUnits s.childUnits⟩]⟩).1,
       (contLoop P rest
         ⟨0, s.childUnits, false, s.roundStart,
          some (contRoi P row s.momUnits s.childUnits),
          s.completed ++
            [⟨d0, row.date, row.date.ord - d0.ord,
              contTotalVal P row s.momUnits s.childUnits - P.capital,
              contRoi P row s.momUnits s.childUnits⟩]⟩).2) := by
  rw [contLoop, if_pos hrun, if_pos hroi, hstart]
  rfl

/-- C6 witness: the stop-profit equation applied to a concrete running
state whose ROI (20%) reaches the 10% target. -/
theorem spec_C6_witness :
    contLoop ⟨"BND", [], 10000, 3000, [], 1/10⟩ [⟨⟨1, 6⟩, bndUpPrices⟩]
        ⟨10000, fun _ => 0, true, some ⟨0, 5⟩, none, []⟩ =
      (⟨⟨1, 6⟩,
        contTotalVal ⟨"BND", [], 10000, 3000, [], 1/10⟩ ⟨⟨1, 6⟩, bndUpPrices⟩ 10000 fun _ => 0,
        contRoi ⟨"BND", [], 10000, 3000, [], 1/10⟩ ⟨⟨1, 6⟩, bndUpPrices⟩ 10000 fun _ => 0,
        .StopProfit, 1⟩ ::
         (contLoop ⟨"BND", [], 10000, 3000, [], 1/10⟩ []
           ⟨0, fun _ => 0, false, some ⟨0, 5⟩,
            some (contRoi ⟨"BND", [], 10000, 3000, [], 1/10⟩ ⟨⟨1, 6⟩, bndUpPrices⟩ 10000
              fun _ => 0),
            [⟨⟨0, 5⟩, ⟨1, 6⟩, (1 : ℤ) - 0,
              contTotalVal ⟨"BND", [], 10000, 3000, [], 1/10⟩ ⟨⟨1, 6⟩, bndUpPrices⟩ 10000
                (fun _ => 0) - 10000,
              contRoi ⟨"BND", [], 10000, 3000, [], 1/10⟩ ⟨⟨1, 6⟩, bndUpPrices⟩ 10000
                fun _ => 0⟩]⟩).1,
       (contLoop ⟨"BND", [], 10000, 3000, [], 1/10⟩ []
         ⟨0, fun _ => 0, false, some ⟨0, 5⟩,
          some (contRoi ⟨"BND", [], 10000, 3000, [], 1/10⟩ ⟨⟨1, 6⟩, bndUpPrices⟩ 10000
            fun _ => 0),
          [⟨⟨0, 5⟩, ⟨1, 6⟩, (1 : ℤ) - 0,
            contTotalVal ⟨"BND", [], 10000, 3000, [], 1/10⟩ ⟨⟨1, 6⟩, bndUpPrices⟩ 10000
              (fun _ => 0) - 10000,
            contRoi ⟨"BND", [], 10000, 3000, [], 1/10⟩ ⟨⟨1, 6⟩, bndUpPrices⟩ 10000
              fun _ => 0⟩]⟩).2) :=
  spec_C6_amended ⟨"BND", [], 10000, 3000, [], 1/10⟩ ⟨⟨1, 6⟩, bndUpPrices⟩ []
    ⟨10000, fun _ => 0, true, some ⟨0, 5⟩, none, []⟩ ⟨0, 5⟩ rfl rfl
    (by norm_num [contRoi, contTotalVal, contChildTotal, bndUpPrices])

/-- C7: the aggregate stats read the loop variable `roi` as "Current
ROI" when the data ends mid-round.  On a run whose final date is the
open round's `Start` date (capital 10000, mother rises 20% then falls
back; stop-profit at 10% fires on date 2, re-entry on date 3 ends the
data), the records are Start (ROI 0), StopProfit (ROI 1/5), Start
(ROI 0), the stats correctly report one completed round and
`Is Running`, but report Current ROI 1/5 — the PREVIOUS round's exit
ROI, not the open round's ROI 0 on the final processed date; and on a
one-date table the stats' Current ROI is `none`, modelling the
`NameError` the source raises because `roi` was never assigned. -/
theorem spec_C7_bug :
    (run_continuous_simulation dfBndRoundTrip "BND" [] 10000 3000 [] (1 / 10)).1.map
        (fun r => (r.roi, r.action))
      = [(0, Action.Start), (1 / 5, Action.StopProfit), (0, Action.Start)] ∧
    (run_continuous_simulation dfBndRoundTrip "BND" [] 10000 3000 [] (1 / 10)).2.1
      = some ⟨1, true, some (1 / 5), 2000, 1⟩ ∧
    (1 : ℚ) / 5 ≠ 0 ∧
    (run_continuous_simulation dfOneDay "BND" [] 10000 3000 [] (1 / 10)).2.1
      = some ⟨0, true, none, 0, 0⟩ := by
  have hb : normTick "BND" = "BND" := by decide
  refine ⟨?_, ?_, by norm_num, ?_⟩ <;>
    norm_num [run_continuous_simulation, contLoop, contRoi, contTotalVal, contChildTotal,
      contDayTransfer, contTransferLoop, initCState, mkStats, dfBndRoundTrip, dfOneDay,
      flatPrices, bndUpPrices, hb, Function.update]

/-- C8 counterexample: with the mother ticker absent from the table
(after normalization), the engines return their plain empty outputs —
the single-pass run returns an empty record table with `triggered`
false, and the continuous run returns empty records, an empty stats
dict and no rounds.  No error value exists: nothing in the code
constructs or reports a `MissingMotherData` error. -/
theorem spec_C8_counterexample :
    run_single_simulation dfNoMother " bnd " ["QQQ"] 10000 3000 [6] (1 / 10)
      = some ([], false) ∧
    run_continuous_simulation dfNoMother " bnd " ["QQQ"] 10000 3000 [6] (1 / 10)
      = ([], none, []) := by
  have hm : normTick " bnd " = "BND" := by decide
  have hmem : ¬ ("BND" : String) ∈ dfNoMother.columns := by decide
  constructor
  · simp only [run_single_simulation, hm]
    rw [if_neg hmem]
  · simp only [run_continuous_simulation, hm]
    rw [if_neg hmem]

/-- C8 (amended): when the normalized mother ticker has no column in
the price table, both engines refuse to simulate and produce no
records — the single-pass run returns `(empty table, False)` and the
continuous run `(empty table, empty stats, no rounds)` — but neither
reports any named error such as `MissingMotherData`; the empty result
is the only signal. -/
theorem spec_C8_amended (df : DF) (momRaw : String) (childRaw : List String)
    (capital tAmt : ℚ) (tDays : List ℕ) (target : ℚ)
    (h : normTick momRaw ∉ df.columns) :
    run_single_simulation df momRaw childRaw capital tAmt tDays target = some ([], false) ∧
    run_continuous_simulation df momRaw childRaw capital tAmt tDays target = ([], none, []) := by
  constructor
  · simp only [run_single_simulation]
    rw [if_neg h]
  · simp only [run_continuous_simulation]
    rw [if_neg h]

/-- C8 witness: the amended theorem applied to a table without the
mother column. -/
theorem spec_C8_witness :
    normTick "XYZ" ∉ dfNoMother.columns ∧
    (run_single_simulation dfNoMother "XYZ" ["QQQ"] 5000 1000 [1] (1 / 4) = some ([], false) ∧
     run_continuous_simulation dfNoMother "XYZ" ["QQQ"] 5000 1000 [1] (1 / 4)
       = ([], none, [])) :=
  ⟨by decide, spec_C8_amended dfNoMother "XYZ" ["QQQ"] 5000 1000 [1] (1 / 4) (by decide)⟩

/-- C9: an executed transfer (mother value covers the amount, prices
positive) recurses — in both loops — with mother units decreased by
exactly `amount/motherPrice` (a strict decrease), that child's units
increased by exactly `amount/childPrice`, other children's units
untouched, and the running mother value reduced by the amount (seen by
every subsequent child that day); mother-plus-child value is unchanged
at the instant of the transfer. -/
theorem spec_C9 (tAmt p : ℚ) (pr : String → ℚ) (t : String) (rest : List String)
    (mu mv : ℚ) (u : String → ℚ) (b : Bool)
    (hmv : tAmt ≤ mv) (hp : 0 < p) (hq : 0 < pr t) (hA : 0 < tAmt) :
    singleTransferLoop tAmt p pr (t :: rest) mu mv u b =
      singleTransferLoop tAmt p pr rest (mu - tAmt / p) (mv - tAmt)
        (Function.update u t (u t + tAmt / pr t)) true ∧
    contTransferLoop tAmt p pr (t :: rest) mu mv u =
      contTransferLoop tAmt p pr rest (mu - tAmt / p) (mv - tAmt)
        (Function.update u t (u t + tAmt / pr t)) ∧
    mu - tAmt / p < mu ∧
    Function.update u t (u t + tAmt / pr t) t = u t + tAmt / pr t ∧
    (∀ x, x ≠ t → Function.update u t (u t + tAmt / pr t) x = u x) ∧
    (mu - tAmt / p) * p + (u t + tAmt / pr t) * pr t = mu * p + u t * pr t := by
  refine ⟨?_, ?_, ?_, ?_, ?_, ?_⟩
  · rw [singleTransferLoop, if_pos hmv]
  · rw [contTransferLoop, if_pos hmv]
  · have hpos : 0 < tAmt / p := div_pos hA hp
    linarith
  · exact Function.update_same t (u t + tAmt / pr t) u
  · intro x hx
    exact Function.update_noteq hx (u t + tAmt / pr t) u
  · rw [sub_mul, add_mul, div_mul_cancel₀ tAmt (ne_of_gt hp),
        div_mul_cancel₀ tAmt (ne_of_gt hq)]
    ring

/-- C9 witness: the transfer identities at a concrete affordable
transfer. -/
theorem spec_C9_witness :
    ((10000 : ℚ) - 3000 / 1) * 1 + ((0 : ℚ) + 3000 / 1) * 1 = 10000 * 1 + 0 * 1 ∧
    (10000 : ℚ) - 3000 / 1 < 10000 :=
  ⟨(spec_C9 3000 1 flatPrices "QQQ" [] 10000 10000 (fun _ => 0) false (by norm_num)
      (by norm_num) (by norm_num [flatPrices]) (by norm_num)).2.2.2.2.2,
   (spec_C9 3000 1 flatPrices "QQQ" [] 10000 10000 (fun _ => 0) false (by norm_num)
      (by norm_num) (by norm_num [flatPrices]) (by norm_num)).2.2.1⟩

/-- The sum of a mapped list all of whose images are zero is zero. -/
theorem sum_zero_list (l : List String) (f : String → ℚ) (hf : ∀ t, f t = 0) :
    (l.map f).sum = 0 := by
  induction l with
  | nil => rfl
  | cons a l ih => simp [hf, ih]

/-- On the first date the single-pass round holds exactly the invested
capital (units were bought at that day's price), so its ROI is 0; if
the target is at most 0 the loop stops immediately with a single
`StopProfit` record. -/
theorem firstDayStop (P : Params) (r0 : Row) (rest : List Row)
    (hp : 0 < r0.prices P.momTick) (htar : P.target ≤ 0) :
    runSingleLoop P (r0 :: rest) (P.capital / r0.prices P.momTick) (fun _ => 0) =
      ([(singleStep P r0 (P.capital / r0.prices P.momTick) (fun _ => 0)).1], true) ∧
    (singleStep P r0 (P.capital / r0.prices P.momTick) (fun _ => 0)).1.action = .StopProfit ∧
    (singleStep P r0 (P.capital / r0.prices P.momTick) (fun _ => 0)).1.roi = 0 ∧
    (singleStep P r0 (P.capital / r0.prices P.momTick) (fun _ => 0)).1.totalValue = P.capital ∧
    (singleStep P r0 (P.capital / r0.prices P.momTick) (fun _ => 0)).1.date = r0.date := by
  have hmom : dayMomVal P r0 (P.capital / r0.prices P.momTick) = P.capital :=
    div_mul_cancel₀ P.capital (ne_of_gt hp)
  have hchild : dayChildTotal P r0 (fun _ => (0 : ℚ)) = 0 := by
    unfold dayChildTotal dayChildVals
    rw [List.map_map]
    exact sum_zero_list P.childTicks _ (fun t => zero_mul _)
  have hroi : dayRoi P r0 (P.capital / r0.prices P.momTick) (fun _ => (0 : ℚ)) = 0 := by
    unfold dayRoi dayTotalVal
    rw [hmom, hchild, add_zero, sub_self, zero_div]
  have hstop : dayRoi P r0 (P.capital / r0.prices P.momTick) (fun _ => (0 : ℚ)) ≥ P.target := by
    rw [hroi]; exact htar
  have hstep := singleStep_stop_eq P r0 (P.capital / r0.prices P.momTick) (fun _ => 0) hstop
  refine ⟨?_, ?_, ?_, ?_, ?_⟩
  · rw [runSingleLoop, if_pos (by rw [hstep])]
  · rw [hstep]
  · rw [hstep]; exact hroi
  · rw [hstep]
    show dayTotalVal P r0 (P.capital / r0.prices P.momTick) (fun _ => (0 : ℚ)) = P.capital
    unfold dayTotalVal
    rw [hmom, hchild, add_zero]
  · rw [hstep]

/-- C10: with full capital invested at the first date's price and no
entry fee, the first-date ROI is exactly 0; therefore on any non-empty
table containing the normalized mother ticker (prices positive,
capital positive) and any target at most 0, the single-pass simulation
emits exactly one record — on the first date, tagged `StopProfit`,
with ROI 0 and total value equal to the capital — and reports
`triggered = true`. -/
theorem spec_C10 (df : DF) (momRaw : String) (childRaw : List String)
    (capital tAmt : ℚ) (tDays : List ℕ) (target : ℚ) (r0 : Row) (rest : List Row)
    (hrows : df.rows = r0 :: rest) (hmem : normTick momRaw ∈ df.columns)
    (_hcap : 0 < capital) (hp : 0 < r0.prices (normTick momRaw)) (htar : target ≤ 0) :
    ∃ rec : SRec,
      run_single_simulation df momRaw childRaw capital tAmt tDays target = some ([rec], true) ∧
      rec.action = .StopProfit ∧ rec.roi = 0 ∧ rec.totalValue = capital ∧
      rec.date = r0.date := by
  obtain ⟨h1, h2, h3, h4, h5⟩ :=
    firstDayStop ⟨normTick momRaw, (childRaw.map normTick).filter fun t => t ∈ df.columns,
      capital, tAmt, tDays, target⟩ r0 rest hp htar
  refine ⟨_, ?_, h2, h3, h4, h5⟩
  simp only [run_single_simulation]
  rw [if_pos hmem, hrows]
  exact congrArg some h1

/-- C10 witness: a one-date run at target -1 stops immediately. -/
theorem spec_C10_witness :
    ∃ rec : SRec,
      run_single_simulation dfOneDay "BND" [] 10000 3000 [6] (-1) = some ([rec], true) ∧
      rec.action = .StopProfit ∧ rec.roi = 0 ∧ rec.totalValue = 10000 ∧
      rec.date = ⟨0, 5⟩ :=
  spec_C10 dfOneDay "BND" [] 10000 3000 [6] (-1) ⟨⟨0, 5⟩, flatPrices⟩ [] rfl (by decide)
    (by norm_num) (by norm_num [flatPrices]) (by norm_num)

end FundApp
